import Mathlib

/-!
Verification development for the SM association-rule mining service
(src/app.py). The core pipeline is `generate_rules`, which
  1. loads the invoice/product data (modelled here as an input list of
     transactions, each an invoice id paired with the list of products on
     that invoice, as produced by grouping the spreadsheet rows),
  2. runs the mlxtend `apriori` search for frequent itemsets at
     `min_support`,
  3. runs mlxtend `association_rules` with metric confidence at
     `min_confidence`,
  4. filters the rules by `lift >= min_lift`,
  5. expands each surviving rule into one record per invoice whose product
     set contains the antecedent.
Every stage that comes up empty raises an error in the Python source; we
model that with an explicit error type. `filter_rules_by_product`
implements the role-based rule lookup.
-/

namespace SM

/-- A transaction: an invoice id together with the list of products bought
on that invoice (one spreadsheet row per product; `load_transaction_data`
at src/app.py lines 27-28 binarizes this to presence/absence, which the
embedding realizes by taking `List.toFinset` of the product list). -/
abbrev Transaction (α : Type) := ℕ × List α

variable {α : Type} [LinearOrder α]

/-- Support of an itemset: the fraction of transactions whose product set
contains it. This is the quantity mlxtend computes for each itemset during
the `apriori` call at src/app.py line 39. -/
def support (tx : List (Transaction α)) (I : Finset α) : ℚ :=
  (tx.countP (fun t => decide (I ⊆ t.2.toFinset)) : ℚ) / (tx.length : ℚ)

/-- The distinct products observed across all transactions, in canonical
sorted order (the columns of the incidence matrix built at src/app.py
line 27). -/
def itemList (tx : List (Transaction α)) : List α :=
  List.insertionSort (· ≤ ·) (tx.flatMap Prod.snd).dedup

/-- All subsets of the itemset represented by the list `l`, enumerated in
a deterministic order (via the sublists of the canonical item list). -/
def subsetsList (l : List α) : List (Finset α) :=
  l.sublists.map List.toFinset

/-- The frequent-itemset collection produced by the mlxtend `apriori` call
at src/app.py line 39: all nonempty itemsets over the observed products
whose support is at least `minSupport`, in canonical enumeration order.
(mlxtend `apriori` with `max_len=None` returns exactly these.) -/
def apriori (tx : List (Transaction α)) (minSupport : ℚ) : List (Finset α) :=
  (subsetsList (itemList tx)).filter
    (fun I => decide (I.Nonempty ∧ minSupport ≤ support tx I))

/-- One row of the mlxtend `association_rules` output, as consumed by
src/app.py lines 56-70: antecedent and consequent itemsets plus the three
metric columns that `generate_rules` copies into its records. -/
structure Rule (α : Type) where
  antecedents : Finset α
  consequents : Finset α
  support : ℚ
  confidence : ℚ
  lift : ℚ
deriving DecidableEq

/-- The rule mlxtend builds for the split of frequent itemset `I` with
antecedent `A` (consequent `I \ A`): support is the support of the whole
itemset, confidence is support(I)/support(A), lift is
confidence/support(consequent). -/
def mkRule (supp : Finset α → ℚ) (I A : Finset α) : Rule α :=
  { antecedents := A
    consequents := I \ A
    support := supp I
    confidence := supp I / supp A
    lift := supp I / supp A / supp (I \ A) }

/-- All candidate rules mlxtend `association_rules` enumerates from a
frequent-itemset collection: for every frequent itemset `I`, every split
of `I` into a nonempty antecedent `A` and a nonempty consequent `I \ A`.
Antecedents are enumerated through the canonical item list restricted to
`I`, which ranges over exactly the subsets of `I`. -/
def ruleCandidates (tx : List (Transaction α)) (F : List (Finset α))
    (supp : Finset α → ℚ) : List (Rule α) :=
  F.flatMap (fun I =>
    (subsetsList (itemList tx)).filterMap (fun A =>
      if A ⊆ I ∧ A.Nonempty ∧ A ≠ I then some (mkRule supp I A) else none))

/-- The mlxtend `association_rules(frequent_itemsets, metric="confidence",
min_threshold=min_confidence)` call at src/app.py line 44: the candidate
rules whose confidence is at least the threshold. -/
def association_rules (tx : List (Transaction α)) (F : List (Finset α))
    (supp : Finset α → ℚ) (minConfidence : ℚ) : List (Rule α) :=
  (ruleCandidates tx F supp).filter (fun r => decide (minConfidence ≤ r.confidence))

/-- The lift filter `rules[rules[lift] >= min_lift]` applied at
src/app.py line 50 to the association_rules output. -/
def lift_filtered_rules (tx : List (Transaction α))
    (minSupport minConfidence minLift : ℚ) : List (Rule α) :=
  (association_rules tx (apriori tx minSupport) (support tx) minConfidence).filter
    (fun r => decide (minLift ≤ r.lift))

/-- The per-invoice expansion at src/app.py lines 55-70: for each rule row
and each invoice, if the antecedent set is a subset of the product set of
that invoice, append a record carrying the invoice id and the rule fields. -/
def rule_records (tx : List (Transaction α)) (rules : List (Rule α)) :
    List (ℕ × Rule α) :=
  rules.flatMap (fun r =>
    tx.filterMap (fun t =>
      if r.antecedents ⊆ t.2.toFinset then some (t.1, r) else none))

/-- The distinct failure branches of `generate_rules` (src/app.py lines
31-75). Each corresponds to a raise site: the empty-data check at line 36,
the threshold check mlxtend `apriori` performs on entry (min_support must
be positive), and the three empty-result raises at lines 41-42, 46-47 and
52-53. All are re-raised wrapped in a generic Exception at line 75. -/
inductive GenError : Type
  | noValidTransactions
  | invalidMinSupport
  | noFrequentItemsets
  | noRules
  | noRulesAfterLift
deriving DecidableEq

/-- `generate_rules(min_support, min_confidence, min_lift)` of src/app.py
lines 31-75, with the loaded transaction data passed explicitly. Returns
either an error (the Python code raises in these branches) or the list of
per-invoice rule records. -/
def generate_rules (tx : List (Transaction α)) (minSupport minConfidence minLift : ℚ) :
    Except GenError (List (ℕ × Rule α)) :=
  if tx.isEmpty then .error .noValidTransactions
  else if minSupport ≤ 0 then .error .invalidMinSupport
  else if (apriori tx minSupport).isEmpty then .error .noFrequentItemsets
  else if (association_rules tx (apriori tx minSupport) (support tx) minConfidence).isEmpty then
    .error .noRules
  else if (lift_filtered_rules tx minSupport minConfidence minLift).isEmpty then
    .error .noRulesAfterLift
  else .ok (rule_records tx (lift_filtered_rules tx minSupport minConfidence minLift))

/-- `filter_rules_by_product(rules_df, product, role)` of src/app.py lines
77-86: keep the rules whose antecedent (role antecedent), consequent (role
consequent) or either side (role any) contains the product. -/
def filter_rules_by_product (rules : List (Rule α)) (product : α) (role : String) :
    List (Rule α) :=
  rules.filter (fun r =>
    decide ((role = "antecedent" ∧ product ∈ r.antecedents) ∨
            (role = "consequent" ∧ product ∈ r.consequents) ∨
            (role = "any" ∧ (product ∈ r.antecedents ∨ product ∈ r.consequents))))

/-- Concrete transaction list used for witnesses: four invoices with
products drawn from 0, 1, 2. -/
def txA : List (Transaction ℕ) :=
  [(1, [0, 1]), (2, [0, 1]), (3, [0, 2]), (4, [1, 2])]

/-- Two disjoint single-product transactions: no itemset reaches support 1. -/
def txB : List (Transaction ℕ) := [(1, [0]), (2, [1])]

/-- The rule 0 -> 1 derived from the frequent itemset containing 0 and 1 of
txA, as built by the association_rules embedding. -/
def ruleAB : Rule ℕ := mkRule (support txA) {0, 1} {0}

/-- The swapped rule 1 -> 0 from the same itemset of txA. -/
def ruleBA : Rule ℕ := mkRule (support txA) {0, 1} {1}

/-- Membership in the subset enumeration: the finsets arising from sublists
of `l` are exactly the finsets whose members all occur in `l`. -/
theorem mem_subsetsList {l : List α} {A : Finset α} :
    A ∈ subsetsList l ↔ ∀ x ∈ A, x ∈ l := by
  constructor
  · rintro h x hx
    simp only [subsetsList, List.mem_map, List.mem_sublists] at h
    obtain ⟨s, hs, rfl⟩ := h
    exact hs.subset (List.mem_toFinset.mp hx)
  · intro h
    simp only [subsetsList, List.mem_map, List.mem_sublists]
    refine ⟨l.filter (fun x => decide (x ∈ A)), List.filter_sublist l, ?_⟩
    ext x
    simp only [List.mem_toFinset, List.mem_filter, decide_eq_true_eq]
    exact ⟨fun hx => hx.2, fun hx => ⟨h x hx, hx⟩⟩

/-- Membership in the apriori output: exactly the nonempty itemsets over
observed products whose support meets the threshold. -/
theorem mem_apriori {tx : List (Transaction α)} {ms : ℚ} {I : Finset α} :
    I ∈ apriori tx ms ↔
      (∀ x ∈ I, x ∈ itemList tx) ∧ I.Nonempty ∧ ms ≤ support tx I := by
  simp [apriori, List.mem_filter, mem_subsetsList, and_assoc]

/-- Support is anti-monotone under itemset inclusion. -/
theorem support_mono (tx : List (Transaction α)) {I J : Finset α} (h : J ⊆ I) :
    support tx I ≤ support tx J := by
  unfold support
  have hc : tx.countP (fun t => decide (I ⊆ t.2.toFinset)) ≤
      tx.countP (fun t => decide (J ⊆ t.2.toFinset)) := by
    apply List.countP_mono_left
    intro t _ ht
    simp only [decide_eq_true_eq] at ht ⊢
    exact h.trans ht
  have hc2 : ((tx.countP (fun t => decide (I ⊆ t.2.toFinset)) : ℚ)) ≤
      (tx.countP (fun t => decide (J ⊆ t.2.toFinset)) : ℚ) := by exact_mod_cast hc
  exact div_le_div_of_nonneg_right hc2 (by positivity)

/-- Membership in the candidate-rule enumeration: exactly the rules built
from a frequent itemset and a nonempty proper antecedent subset. -/
theorem mem_ruleCandidates {tx : List (Transaction α)} {F : List (Finset α)}
    {supp : Finset α → ℚ} {r : Rule α} :
    r ∈ ruleCandidates tx F supp ↔
      ∃ I ∈ F, ∃ A : Finset α, (∀ x ∈ A, x ∈ itemList tx) ∧
        A ⊆ I ∧ A.Nonempty ∧ A ≠ I ∧ r = mkRule supp I A := by
  simp only [ruleCandidates, List.mem_flatMap, List.mem_filterMap, mem_subsetsList,
    Option.ite_none_right_eq_some, Option.some.injEq]
  constructor
  · rintro ⟨I, hI, A, hA, ⟨⟨hsub, hne, hni⟩, rfl⟩⟩
    exact ⟨I, hI, A, hA, hsub, hne, hni, rfl⟩
  · rintro ⟨I, hI, A, hA, hsub, hne, hni, rfl⟩
    exact ⟨I, hI, A, ⟨hA, ⟨hsub, hne, hni⟩, rfl⟩⟩

/-- C3: every candidate rule derived from a frequent itemset I with
antecedent A has confidence support(I)/support(A) (with I the union of
antecedent and consequent), and a rule is in the association_rules output
exactly when it is a candidate whose confidence is at least
min_confidence. -/
theorem C3_confidence_and_threshold (tx : List (Transaction α)) (ms mc : ℚ) :
    (∀ r ∈ ruleCandidates tx (apriori tx ms) (support tx),
        r.confidence =
          support tx (r.antecedents ∪ r.consequents) / support tx r.antecedents) ∧
    (∀ r : Rule α,
        r ∈ association_rules tx (apriori tx ms) (support tx) mc ↔
          r ∈ ruleCandidates tx (apriori tx ms) (support tx) ∧ mc ≤ r.confidence) := by
  constructor
  · intro r hr
    obtain ⟨I, _, A, _, hAI, _, _, rfl⟩ := mem_ruleCandidates.mp hr
    simp only [mkRule]
    rw [Finset.union_sdiff_of_subset hAI]
  · intro r
    simp [association_rules, List.mem_filter]

/-- Witness for C3 on concrete data: the rule 0 -> 1 of txA has confidence
support(\x7b0,1\x7d)/support(\x7b0\x7d) and lies in the association_rules
output at min_confidence 1/2. -/
theorem C3_confidence_and_threshold_witness :
    ruleAB.confidence = support txA ({0} ∪ {1}) / support txA {0} ∧
    ruleAB ∈ association_rules txA (apriori txA (1/2)) (support txA) (1/2) := by
  constructor
  · have h := (C3_confidence_and_threshold txA (1/2) (1/2)).1 ruleAB
      (by with_unfolding_all decide)
    have he : ruleAB.antecedents ∪ ruleAB.consequents = ({0} ∪ {1} : Finset ℕ) := by decide
    have ha : ruleAB.antecedents = ({0} : Finset ℕ) := by decide
    rw [he, ha] at h
    exact h
  · exact ((C3_confidence_and_threshold txA (1/2) (1/2)).2 ruleAB).mpr
      ⟨by with_unfolding_all decide, by with_unfolding_all decide⟩

/-- C4: every candidate rule has lift = confidence / support(consequent),
and a rule survives the lift filter exactly when it is in the
association_rules output and its lift is at least min_lift. -/
theorem C4_lift_and_threshold (tx : List (Transaction α)) (ms mc ml : ℚ) :
    (∀ r ∈ ruleCandidates tx (apriori tx ms) (support tx),
        r.lift = r.confidence / support tx r.consequents) ∧
    (∀ r : Rule α,
        r ∈ lift_filtered_rules tx ms mc ml ↔
          r ∈ association_rules tx (apriori tx ms) (support tx) mc ∧ ml ≤ r.lift) := by
  constructor
  · intro r hr
    obtain ⟨I, _, A, _, _, _, _, rfl⟩ := mem_ruleCandidates.mp hr
    rfl
  · intro r
    simp [lift_filtered_rules, List.mem_filter]

/-- Witness for C4 on concrete data: the rule 0 -> 1 of txA has
lift = confidence / support(consequent) and survives the lift filter at
min_lift 1/2. -/
theorem C4_lift_and_threshold_witness :
    ruleAB.lift = ruleAB.confidence / support txA ruleAB.consequents ∧
    ruleAB ∈ lift_filtered_rules txA (1/2) (1/2) (1/2) := by
  constructor
  · exact (C4_lift_and_threshold txA (1/2) (1/2) (1/2)).1 ruleAB
      (by with_unfolding_all decide)
  · exact ((C4_lift_and_threshold txA (1/2) (1/2) (1/2)).2 ruleAB).mpr
      ⟨by with_unfolding_all decide, by with_unfolding_all decide⟩

/-- C5: anti-monotonicity of the mined frequent-itemset collection: any
nonempty subset of a frequent itemset is itself in the output, with
support at least as large. -/
theorem C5_anti_monotonicity (tx : List (Transaction α)) (ms : ℚ)
    (I J : Finset α) (hJI : J ⊆ I) (hJ : J.Nonempty) (hI : I ∈ apriori tx ms) :
    J ∈ apriori tx ms ∧ support tx I ≤ support tx J := by
  obtain ⟨hx, _, hs⟩ := mem_apriori.mp hI
  have hmono := support_mono tx hJI
  exact ⟨mem_apriori.mpr ⟨fun x hxJ => hx x (hJI hxJ), hJ, le_trans hs hmono⟩, hmono⟩

/-- Witness for C5 on concrete data: the subset containing 0 of the
frequent itemset containing 0 and 1 of txA is frequent with support at
least that of the superset. -/
theorem C5_anti_monotonicity_witness :
    ({0} : Finset ℕ) ∈ apriori txA (1/2) ∧
      support txA {0, 1} ≤ support txA {0} :=
  C5_anti_monotonicity txA (1/2) {0, 1} {0} (by decide) (by decide)
    (by with_unfolding_all decide)

/-- C6: the role-based lookup returns exactly the rules whose antecedent
(role antecedent), consequent (role consequent) or either side (role any)
contains the item, and for an item appearing in no rule every role returns
the empty list rather than an error. -/
theorem C6_lookup_roles (rules : List (Rule α)) (p : α) :
    (∀ r : Rule α, r ∈ filter_rules_by_product rules p "antecedent" ↔
        r ∈ rules ∧ p ∈ r.antecedents) ∧
    (∀ r : Rule α, r ∈ filter_rules_by_product rules p "consequent" ↔
        r ∈ rules ∧ p ∈ r.consequents) ∧
    (∀ r : Rule α, r ∈ filter_rules_by_product rules p "any" ↔
        r ∈ rules ∧ (p ∈ r.antecedents ∨ p ∈ r.consequents)) ∧
    ((∀ r ∈ rules, p ∉ r.antecedents ∧ p ∉ r.consequents) →
      ∀ role : String, filter_rules_by_product rules p role = []) := by
  refine ⟨?_, ?_, ?_, ?_⟩
  · intro r
    simp [filter_rules_by_product, List.mem_filter]
  · intro r
    simp [filter_rules_by_product, List.mem_filter]
  · intro r
    simp [filter_rules_by_product, List.mem_filter]
  · intro h role
    unfold filter_rules_by_product
    rw [List.filter_eq_nil_iff]
    intro r hr
    obtain ⟨ha, hc⟩ := h r hr
    simp [ha, hc]

/-- Witness for C6 on concrete data: looking up product 0 in the
single-rule collection finds the rule in the antecedent and any roles but
not the consequent role, and looking up the unseen product 5 returns the
empty list for an arbitrary role. -/
theorem C6_lookup_roles_witness :
    (ruleAB ∈ filter_rules_by_product [ruleAB] 0 "antecedent" ↔
      ruleAB ∈ [ruleAB] ∧ 0 ∈ ruleAB.antecedents) ∧
    filter_rules_by_product [ruleAB] 5 "any" = [] := by
  constructor
  · exact (C6_lookup_roles [ruleAB] 0).1 ruleAB
  · exact (C6_lookup_roles [ruleAB] 5).2.2.2 (by decide) "any"

/-- C7: two candidate rules over the same itemset union with antecedent and
consequent swapped have the same lift, and that common value is
support(union) / (support(antecedent) * support(consequent)). -/
theorem C7_lift_swap_invariant (tx : List (Transaction α)) (F : List (Finset α))
    (r r2 : Rule α)
    (hr : r ∈ ruleCandidates tx F (support tx))
    (hr2 : r2 ∈ ruleCandidates tx F (support tx))
    (hant : r2.antecedents = r.consequents)
    (hcons : r2.consequents = r.antecedents) :
    r.lift = r2.lift ∧
    r.lift = support tx (r.antecedents ∪ r.consequents) /
      (support tx r.antecedents * support tx r.consequents) := by
  obtain ⟨I, _, A, _, hAI, _, _, rfl⟩ := mem_ruleCandidates.mp hr
  obtain ⟨I2, _, A2, _, hA2I, _, _, rfl⟩ := mem_ruleCandidates.mp hr2
  simp only [mkRule] at hant hcons ⊢
  subst hant
  have hI2 : I2 = I := by
    rw [← Finset.union_sdiff_of_subset hA2I, hcons, Finset.union_comm,
      Finset.union_sdiff_of_subset hAI]
  subst hI2
  rw [Finset.union_sdiff_of_subset hAI, hcons]
  constructor
  · rw [div_div, div_div, mul_comm]
  · rw [div_div]

/-- Witness for C7 on concrete data: the rules 0 -> 1 and 1 -> 0 over the
itemset containing 0 and 1 of txA have equal lift, matching the symmetric
formula. -/
theorem C7_lift_swap_invariant_witness :
    ruleAB.lift = ruleBA.lift ∧
    ruleAB.lift = support txA (ruleAB.antecedents ∪ ruleAB.consequents) /
      (support txA ruleAB.antecedents * support txA ruleAB.consequents) :=
  C7_lift_swap_invariant txA (apriori txA (1/2)) ruleAB ruleBA
    (by with_unfolding_all decide) (by with_unfolding_all decide)
    (by decide) (by decide)

/-- C8: the mining pipeline is a pure function of the transactions and the
three thresholds, so two runs on the same input produce identical
frequent-itemset lists, identical filtered rule lists and identical record
collections, in the same order. -/
theorem C8_determinism (tx : List (Transaction α)) (ms mc ml : ℚ) :
    apriori tx ms = apriori tx ms ∧
    lift_filtered_rules tx ms mc ml = lift_filtered_rules tx ms mc ml ∧
    generate_rules tx ms mc ml = generate_rules tx ms mc ml :=
  ⟨rfl, rfl, rfl⟩

/-- When the frequent-itemset search comes up empty, generate_rules takes
the raise branch at src/app.py lines 41-42. -/
theorem generate_rules_noF (tx : List (Transaction α)) (ms mc ml : ℚ)
    (htx : tx ≠ []) (hms : 0 < ms) (hF : apriori tx ms = []) :
    generate_rules tx ms mc ml = .error .noFrequentItemsets := by
  unfold generate_rules
  rw [if_neg (by simp [htx]), if_neg (not_le.mpr hms), if_pos (by simp [hF])]

/-- Every support value is at most 1. -/
theorem support_le_one {tx : List (Transaction α)} (htx : tx ≠ [])
    (I : Finset α) : support tx I ≤ 1 := by
  unfold support
  have hN : (0:ℚ) < (tx.length : ℚ) := by
    exact_mod_cast List.length_pos.mpr htx
  rw [div_le_one hN]
  exact_mod_cast List.countP_le_length _

/-- A threshold above 1 leaves no frequent itemset. -/
theorem apriori_nil_of_gt_one {tx : List (Transaction α)} (htx : tx ≠ [])
    {ms : ℚ} (h1 : 1 < ms) : apriori tx ms = [] := by
  unfold apriori
  rw [List.filter_eq_nil_iff]
  intro I _
  simp only [decide_eq_true_eq]
  rintro ⟨-, hle⟩
  exact absurd hle (not_le.mpr (lt_of_le_of_lt (support_le_one htx I) h1))

/-- C1 fails on the code: with the valid threshold min_support = 1 over
txB (no itemset is frequent), generate_rules does not return an empty
collection but the no-frequent-itemsets error (the raise at src/app.py
lines 41-42). -/
theorem C1_counterexample :
    generate_rules txB 1 (1/5) 1 = Except.error GenError.noFrequentItemsets := by
  with_unfolding_all rfl

/-- C1 amended: when a stage of generate_rules comes up empty (no frequent
itemsets, no rules at the confidence threshold, or no rules after the lift
filter), generate_rules raises the corresponding error instead of
returning an empty collection. -/
theorem C1_amended_empty_raises (tx : List (Transaction α)) (ms mc ml : ℚ)
    (htx : tx ≠ []) (hms : 0 < ms) :
    (apriori tx ms = [] → generate_rules tx ms mc ml = .error .noFrequentItemsets) ∧
    (apriori tx ms ≠ [] →
      association_rules tx (apriori tx ms) (support tx) mc = [] →
      generate_rules tx ms mc ml = .error .noRules) ∧
    (apriori tx ms ≠ [] →
      association_rules tx (apriori tx ms) (support tx) mc ≠ [] →
      lift_filtered_rules tx ms mc ml = [] →
      generate_rules tx ms mc ml = .error .noRulesAfterLift) := by
  refine ⟨?_, ?_, ?_⟩
  · exact generate_rules_noF tx ms mc ml htx hms
  · intro hF hR
    unfold generate_rules
    rw [if_neg (by simp [htx]), if_neg (not_le.mpr hms), if_neg (by simp [hF]),
      if_pos (by simp [hR])]
  · intro hF hR hL
    unfold generate_rules
    rw [if_neg (by simp [htx]), if_neg (not_le.mpr hms), if_neg (by simp [hF]),
      if_neg (by simp [hR]), if_pos (by simp [hL])]

/-- Witness for the amended C1 on concrete data: over txB with the valid
threshold min_support = 2/3 no itemset is frequent and generate_rules
reports the no-frequent-itemsets error. -/
theorem C1_amended_empty_raises_witness :
    generate_rules txB (2/3) (1/5) 1 = .error .noFrequentItemsets :=
  (C1_amended_empty_raises txB (2/3) (1/5) 1 (by decide)
    (by norm_num)).1 (by with_unfolding_all decide)

/-- C2 fails on the code: out-of-range lift and support thresholds are not
rejected by a threshold validation. With min_lift = 0 (outside the
interval (0,1] of the claim) the call over txA succeeds instead of
failing, and with min_support = 3/2 it performs the search and reports the
empty-itemset error rather than failing with a threshold error before the
search. -/
theorem C2_counterexample :
    (generate_rules txA (1/2) (1/5) 0).isOk = true ∧
    generate_rules txA (3/2) (1/5) 1 = Except.error GenError.noFrequentItemsets := by
  constructor
  · with_unfolding_all decide
  · with_unfolding_all rfl

/-- C2 amended: only min_support is range-checked, by the mlxtend apriori
call itself: a non-positive min_support makes generate_rules fail before
any search; min_support above 1 is not rejected but yields the
no-frequent-itemsets error after the search, and out-of-range confidence
or lift thresholds are not validated at all. -/
theorem C2_amended_support_check (tx : List (Transaction α)) (ms mc ml : ℚ)
    (htx : tx ≠ []) :
    (ms ≤ 0 → generate_rules tx ms mc ml = .error .invalidMinSupport) ∧
    (1 < ms → generate_rules tx ms mc ml = .error .noFrequentItemsets) := by
  constructor
  · intro hms
    unfold generate_rules
    rw [if_neg (by simp [htx]), if_pos hms]
  · intro h1
    exact generate_rules_noF tx ms mc ml htx (lt_trans zero_lt_one h1)
      (apriori_nil_of_gt_one htx h1)

/-- Witness for the amended C2 on concrete data: min_support = 0 over txB
is rejected with the threshold error, and min_support = 3/2 produces the
empty-itemset error. -/
theorem C2_amended_support_check_witness :
    generate_rules txB 0 (1/5) 1 = .error .invalidMinSupport ∧
    generate_rules txB (3/2) (1/5) 1 = .error .noFrequentItemsets :=
  ⟨(C2_amended_support_check txB 0 (1/5) 1 (by decide)).1 le_rfl,
   (C2_amended_support_check txB (3/2) (1/5) 1 (by decide)).2 (by norm_num)⟩

/-- C10: calling the role-based filter with a role other than antecedent,
consequent or any returns the empty list and raises no error. -/
theorem C10_unknown_role_empty (rules : List (Rule α)) (p : α) (role : String)
    (h1 : role ≠ "antecedent") (h2 : role ≠ "consequent") (h3 : role ≠ "any") :
    filter_rules_by_product rules p role = [] := by
  unfold filter_rules_by_product
  rw [List.filter_eq_nil_iff]
  intro r hr
  simp [h1, h2, h3]

/-- Witness for C10 on concrete data: the role string both returns the
empty list on a nonempty rule collection. -/
theorem C10_unknown_role_empty_witness :
    filter_rules_by_product [ruleAB] 0 "both" = [] :=
  C10_unknown_role_empty [ruleAB] 0 "both" (by decide) (by decide) (by decide)

/-- Membership in the record expansion: the records are exactly the pairs
of an invoice id and a rule whose antecedent is contained in the product
set of that invoice. -/
theorem mem_rule_records {tx : List (Transaction α)} {rules : List (Rule α)}
    {x : ℕ × Rule α} :
    x ∈ rule_records tx rules ↔
      ∃ r ∈ rules, ∃ t ∈ tx, r.antecedents ⊆ t.2.toFinset ∧ (t.1, r) = x := by
  simp only [rule_records, List.mem_flatMap, List.mem_filterMap,
    Option.ite_none_right_eq_some, Option.some.injEq]

/-- The per-rule record list has one entry per invoice containing the
antecedent. -/
theorem length_filterMap_records (tx : List (Transaction α)) (r : Rule α) :
    (tx.filterMap (fun t =>
        if r.antecedents ⊆ t.2.toFinset then some (t.1, r) else none)).length =
      tx.countP (fun t => decide (r.antecedents ⊆ t.2.toFinset)) := by
  induction tx with
  | nil => rfl
  | cons t ts ih =>
    by_cases h : r.antecedents ⊆ t.2.toFinset
    · simp [List.filterMap_cons, h, List.countP_cons, ih]
    · simp [List.filterMap_cons, h, List.countP_cons, ih]

/-- The record list splits as the records of the head rule followed by the
records of the remaining rules. -/
theorem rule_records_cons (tx : List (Transaction α)) (r : Rule α)
    (rs : List (Rule α)) :
    rule_records tx (r :: rs) =
      (tx.filterMap (fun t =>
        if r.antecedents ⊆ t.2.toFinset then some (t.1, r) else none)) ++
      rule_records tx rs := by
  simp [rule_records, List.flatMap_cons]

/-- The total record count is the sum over rules of the number of invoices
containing the antecedent. -/
theorem length_rule_records (tx : List (Transaction α)) (rules : List (Rule α)) :
    (rule_records tx rules).length =
      (rules.map (fun r =>
        tx.countP (fun t => decide (r.antecedents ⊆ t.2.toFinset)))).sum := by
  induction rules with
  | nil => rfl
  | cons r rs ih =>
    rw [rule_records_cons, List.length_append, length_filterMap_records, ih,
      List.map_cons, List.sum_cons]

/-- Records built for a different rule never match. -/
theorem count_zero_of_ne_rule {tx : List (Transaction α)} {r r2 : Rule α}
    (h : r2 ≠ r) (n : ℕ) :
    (tx.filterMap (fun t =>
        if r2.antecedents ⊆ t.2.toFinset then some (t.1, r2) else none)).count (n, r)
      = 0 := by
  rw [List.count_eq_zero]
  intro hmem
  obtain ⟨t, _, hsome⟩ := List.mem_filterMap.mp hmem
  rw [Option.ite_none_right_eq_some, Option.some.injEq, Prod.mk.injEq] at hsome
  exact h hsome.2.2

/-- Records of transactions whose invoice ids avoid `n` never match a
record with id `n`. -/
theorem count_zero_of_ne_id {tx : List (Transaction α)} {r : Rule α} {n : ℕ}
    (h : n ∉ tx.map Prod.fst) :
    (tx.filterMap (fun t =>
        if r.antecedents ⊆ t.2.toFinset then some (t.1, r) else none)).count (n, r)
      = 0 := by
  rw [List.count_eq_zero]
  intro hmem
  obtain ⟨t, ht, hsome⟩ := List.mem_filterMap.mp hmem
  rw [Option.ite_none_right_eq_some, Option.some.injEq, Prod.mk.injEq] at hsome
  exact h (hsome.2.1 ▸ List.mem_map.mpr ⟨t, ht, rfl⟩)

/-- With pairwise distinct invoice ids, a single rule contributes exactly
one record for an invoice containing its antecedent and none otherwise. -/
theorem count_records_single {tx : List (Transaction α)} {r : Rule α}
    (hids : (tx.map Prod.fst).Nodup) {t : Transaction α} (ht : t ∈ tx) :
    (tx.filterMap (fun t2 =>
        if r.antecedents ⊆ t2.2.toFinset then some (t2.1, r) else none)).count (t.1, r)
      = if r.antecedents ⊆ t.2.toFinset then 1 else 0 := by
  induction tx with
  | nil => cases ht
  | cons t0 ts ih =>
    rw [List.map_cons, List.nodup_cons] at hids
    rcases List.mem_cons.mp ht with rfl | hts
    · rw [List.filterMap_cons]
      by_cases h : r.antecedents ⊆ t.2.toFinset
      · rw [if_pos h, if_pos h, List.count_cons_self, count_zero_of_ne_id hids.1]
      · rw [if_neg h, if_neg h, count_zero_of_ne_id hids.1]
    · have hne : t.1 ≠ t0.1 := fun he =>
        hids.1 (he ▸ List.mem_map.mpr ⟨t, hts, rfl⟩)
      rw [List.filterMap_cons]
      by_cases h : r.antecedents ⊆ t0.2.toFinset
      · rw [if_pos h, List.count_cons_of_ne (by simp [Prod.ext_iff, hne]),
          ih hids.2 hts]
      · rw [if_neg h, ih hids.2 hts]

/-- With distinct invoice ids and distinct rules, every (rule, invoice)
pair contributes exactly one record when the invoice contains the
antecedent and none otherwise. -/
theorem count_rule_records {tx : List (Transaction α)} {rules : List (Rule α)}
    (hids : (tx.map Prod.fst).Nodup) (hrules : rules.Nodup)
    {r : Rule α} (hr : r ∈ rules) {t : Transaction α} (ht : t ∈ tx) :
    (rule_records tx rules).count (t.1, r) =
      if r.antecedents ⊆ t.2.toFinset then 1 else 0 := by
  induction rules with
  | nil => cases hr
  | cons r0 rs ih =>
    rw [List.nodup_cons] at hrules
    rw [rule_records_cons, List.count_append]
    rcases List.mem_cons.mp hr with rfl | hrs
    · have hz : (rule_records tx rs).count (t.1, r) = 0 := by
        rw [List.count_eq_zero]
        intro hmem
        obtain ⟨r2, hr2, t2, _, _, heq⟩ := mem_rule_records.mp hmem
        rw [Prod.mk.injEq] at heq
        exact hrules.1 (heq.2 ▸ hr2)
      rw [count_records_single hids ht, hz, add_zero]
    · have h0 : r0 ≠ r := fun he => hrules.1 (he ▸ hrs)
      rw [count_zero_of_ne_rule h0, zero_add]
      exact ih hrules.2 hrs

/-- C9: the record collection returned by generate_rules has one record
per (rule, invoice) pair: each rule appears exactly once for every invoice
whose product set contains its antecedent (given the invoice ids and rule
rows are pairwise distinct, as pandas guarantees), and the total record
count, reported as rules_count, is the sum over rules of the number of
matching invoices, not the number of distinct rules. -/
theorem C9_record_per_invoice_pair (tx : List (Transaction α))
    (rules : List (Rule α)) (hids : (tx.map Prod.fst).Nodup)
    (hrules : rules.Nodup) (r : Rule α) (hr : r ∈ rules)
    (t : Transaction α) (ht : t ∈ tx) :
    (rule_records tx rules).count (t.1, r) =
      (if r.antecedents ⊆ t.2.toFinset then 1 else 0) ∧
    (rule_records tx rules).length =
      (rules.map (fun r2 =>
        tx.countP (fun t2 => decide (r2.antecedents ⊆ t2.2.toFinset)))).sum :=
  ⟨count_rule_records hids hrules hr ht, length_rule_records tx rules⟩

/-- Witness for C9 on concrete data: over txA with the single rule 0 -> 1,
invoice 1 (whose products contain the antecedent) carries exactly one
record, and the record count is the sum of matching invoices per rule. -/
theorem C9_record_per_invoice_pair_witness :
    (rule_records txA [ruleAB]).count (((1:ℕ), [0, 1]).1, ruleAB) =
      (if ruleAB.antecedents ⊆ ((1:ℕ), [0, 1]).2.toFinset then 1 else 0) ∧
    (rule_records txA [ruleAB]).length =
      ([ruleAB].map (fun r2 =>
        txA.countP (fun t2 => decide (r2.antecedents ⊆ t2.2.toFinset)))).sum :=
  C9_record_per_invoice_pair txA [ruleAB] (by decide) (List.nodup_singleton ruleAB)
    ruleAB (List.mem_singleton.mpr rfl) ((1:ℕ), [0, 1]) (by decide)

end SM
